import Mathlib

/-!
Verification development for the ESP32 MOSFET-characterization firmware.

The numerical analysis engine (`math_engine`), the storage manager
(`FileManager`) and the sweep controller (`MOSFETController`) are shallowly
embedded below.  `float`/`double` arithmetic of the source is modelled by
exact rational arithmetic (`ℚ`); `std::vector<float>` by `List ℚ`;
`log10f`, a transcendental function, is passed as an explicit parameter
`lg : ℚ → ℚ` to the functions that use it, so that all definitions stay
executable.  Stateful controller code is modelled by explicit state passing;
the environment of the worker task (file-open success, co-operative
cancellation, task creation) is passed as explicit parameters.
-/

namespace math_engine

/-- Saturating/truncating cast from the rational model of a `float` to `int`,
as performed by a C-style `(int)` cast: truncation toward zero. -/
def truncQ (q : ℚ) : ℤ := if 0 ≤ q then ⌊q⌋ else -⌊-q⌋

/-- Sum of a list of rationals (`float` accumulation loop). -/
def sumL (l : List ℚ) : ℚ := l.foldl (· + ·) 0

/-- Pairwise-product accumulation `Σ xᵢ·yᵢ` over two lists. -/
def dotL (a b : List ℚ) : ℚ := (a.zip b).foldl (fun acc p => acc + p.1 * p.2) 0

/-- `movingAverageSmooth` window coercion: a window below 1 becomes 1 and an
even window is bumped to the next odd value, exactly as in the source. -/
def maWindow (windowSize : ℕ) : ℕ :=
  let w := max windowSize 1
  if w % 2 = 0 then w + 1 else w

/-- `math_engine::movingAverageSmooth`: symmetric moving average with
boundary truncation (fewer neighbours are averaged at the edges). -/
def movingAverageSmooth (data : List ℚ) (windowSize : ℕ) : List ℚ :=
  if data.isEmpty then []
  else
    let w := maWindow windowSize
    let n := data.length
    let half : ℕ := w / 2
    (List.range n).map fun i =>
      let idxs := (List.range w).filterMap fun j =>
        let idx : ℤ := (i : ℤ) + (j : ℤ) - (half : ℤ)
        if 0 ≤ idx ∧ idx < (n : ℤ) then some idx.toNat else none
      let sum := (idxs.map fun idx => data.getD idx 0).foldl (· + ·) 0
      sum / (idxs.length : ℚ)

/-- The fixed window-5 order-2 Savitzky–Golay convolution coefficients
`[-3, 12, 17, 12, -3] / 35`. -/
def sgCoeffs : List ℚ := [-3/35, 12/35, 17/35, 12/35, -3/35]

/-- `math_engine::savitzkyGolaySmooth`: fixed 5-point quadratic
Savitzky–Golay convolution with edge-clamped index lookup; falls back to the
moving average when fewer than 5 samples are available.  (`polyOrder` is
accepted but unused, as in the source.) -/
def savitzkyGolaySmooth (data : List ℚ) (windowSize : ℕ) (polyOrder : ℕ) : List ℚ :=
  if data.length < 5 then movingAverageSmooth data windowSize
  else
    let n := data.length
    (List.range n).map fun i =>
      (List.range 5).foldl
        (fun (sum : ℚ) (j : ℕ) =>
          let idx : ℤ := (i : ℤ) + (j : ℤ) - 2
          let idxc : ℕ := if idx < 0 then 0 else if (n : ℤ) ≤ idx then n - 1 else idx.toNat
          sum + data.getD idxc 0 * sgCoeffs.getD j 0)
        0

/-- Result record of `math_engine::linearRegression` (the source returns R²
and writes `slope`/`intercept` through output parameters). -/
structure LinReg where
  slope : ℚ
  intercept : ℚ
  r2 : ℚ
deriving Repr, DecidableEq

/-- Denominator `n·Σx² − (Σx)²` of the ordinary-least-squares slope. -/
def regressionDenom (x : List ℚ) : ℚ :=
  (x.length : ℚ) * dotL x x - sumL x * sumL x

/-- Total sum of squares `Σ (yᵢ − ȳ)²` of `y` about its mean. -/
def ssTotOf (y : List ℚ) : ℚ :=
  let yMean := sumL y / (y.length : ℚ)
  (y.map fun v => (v - yMean) ^ 2).foldl (· + ·) 0

/-- Residual sum of squares of `y` against the line `slope·x + intercept`. -/
def ssResOf (x y : List ℚ) (slope intercept : ℚ) : ℚ :=
  ((x.zip y).map fun p => (p.2 - (slope * p.1 + intercept)) ^ 2).foldl (· + ·) 0

/-- `math_engine::linearRegression`: ordinary least squares; degenerate
inputs (size mismatch, fewer than 2 points, near-zero x-variance) return
slope 0 and R² 0; an essentially constant `y` (`ssTot < 1e-12`) returns
R² 1. -/
def linearRegression (x y : List ℚ) : LinReg :=
  if x.length ≠ y.length ∨ x.length < 2 then ⟨0, 0, 0⟩
  else
    let n : ℚ := (x.length : ℚ)
    let sx := sumL x
    let sy := sumL y
    let sxy := dotL x y
    let denominator := regressionDenom x
    if |denominator| < 1 / 10 ^ 12 then ⟨0, sy / n, 0⟩
    else
      let slope := (n * sxy - sx * sy) / denominator
      let intercept := (sy - slope * sx) / n
      let ssRes := ssResOf x y slope intercept
      let ssTot := ssTotOf y
      if ssTot < 1 / 10 ^ 12 then ⟨slope, intercept, 1⟩
      else ⟨slope, intercept, 1 - ssRes / ssTot⟩

/-- Configuration record `math_engine::GmConfig` with its default values. -/
structure GmConfig where
  smoothingWindow : ℕ := 5
  useSavitzkyGolay : Bool := true
deriving Repr, DecidableEq

/-- `math_engine::calculateGm`: smoothing followed by a central-difference
derivative, with one-sided differences at both boundaries and a zero result
where the local voltage delta is below the `1e-9` noise threshold. -/
def calculateGm (ids vgs : List ℚ) (config : GmConfig) : List ℚ :=
  if ids.length ≠ vgs.length ∨ ids.length < 3 then List.replicate ids.length 0
  else
    let n := ids.length
    let idsSmooth :=
      if config.useSavitzkyGolay then savitzkyGolaySmooth ids config.smoothingWindow 2
      else movingAverageSmooth ids config.smoothingWindow
    (List.range n).map fun i =>
      if i = 0 then
        let dVgs := vgs.getD 1 0 - vgs.getD 0 0
        if 1 / 10 ^ 9 < |dVgs| then (idsSmooth.getD 1 0 - idsSmooth.getD 0 0) / dVgs else 0
      else if i = n - 1 then
        let dVgs := vgs.getD (n-1) 0 - vgs.getD (n-2) 0
        if 1 / 10 ^ 9 < |dVgs| then (idsSmooth.getD (n-1) 0 - idsSmooth.getD (n-2) 0) / dVgs else 0
      else
        let dVgs := vgs.getD (i+1) 0 - vgs.getD (i-1) 0
        if 1 / 10 ^ 9 < |dVgs| then (idsSmooth.getD (i+1) 0 - idsSmooth.getD (i-1) 0) / dVgs else 0

/-- Index of the first occurrence of the maximum of a list
(the semantics of `std::max_element`); `0` on the empty list. -/
def argmaxFirst : List ℚ → ℕ
  | [] => 0
  | [_] => 0
  | a :: b :: l =>
    let j := argmaxFirst (b :: l)
    if (b :: l).getD j 0 ≤ a then 0 else j + 1

/-- `math_engine::calculateVt`: linear extrapolation from the point of
maximum transconductance, guarded by boundary-margin and positivity checks,
with a second-derivative-peak fallback that re-invokes `calculateGm`. -/
def calculateVt (gm vgs ids : List ℚ) : ℚ :=
  if gm.length ≠ vgs.length ∨ gm.length < 5 then 0
  else
    let maxIdx := argmaxFirst gm
    let maxGm := gm.getD maxIdx 0
    if maxGm ≤ 0 ∨ maxIdx < 2 ∨ gm.length - 2 ≤ maxIdx then 0
    else
      let vgsAtMax := vgs.getD maxIdx 0
      let idsAtMax := ids.getD maxIdx 0
      if 1 / 10 ^ 12 < maxGm ∧ 0 < vgsAtMax - idsAtMax / maxGm ∧
          vgsAtMax - idsAtMax / maxGm < vgsAtMax then
        vgsAtMax - idsAtMax / maxGm
      else
        let d2 := calculateGm gm vgs {}
        let d2Idx := argmaxFirst d2
        if 0 < d2Idx ∧ d2Idx < vgs.length then vgs.getD d2Idx 0 else 0

/-- Result record `math_engine::SSResult` with its default field values. -/
structure SSResult where
  ss_mVdec : ℚ := 0
  valid : Bool := false
  x1 : ℚ := 0
  y1 : ℚ := 0
  x2 : ℚ := 0
  y2 : ℚ := 0
  regionStart : ℕ := 0
  regionEnd : ℕ := 0
deriving Repr, DecidableEq

/-- Step 0 of `math_engine::calculateSS`: the 5-point moving average of the
raw currents. -/
def ssSmooth (ids : List ℚ) : List ℚ := movingAverageSmooth ids 5

/-- Step 1 of `math_engine::calculateSS` at one index: the local
`d(log10 Ids)/dVgs` slope and its validity flag.  Interior points only;
currents below the `1e-12` noise floor, voltage deltas below `1e-9` and
log-current deltas of at most `0.01` decades leave the slot at
`(0, invalid)`; otherwise the point is valid when it exceeds 0.5 decades
per volt.  `lg` models `log10f`. -/
def ssSlopeValid (lg : ℚ → ℚ) (idsSmooth vgs : List ℚ) (n i : ℕ) : ℚ × Bool :=
  if i = 0 ∨ n - 1 ≤ i then (0, false)
  else
    let idsPrev := |idsSmooth.getD (i-1) 0|
    let idsNext := |idsSmooth.getD (i+1) 0|
    if idsPrev < 1 / 10 ^ 12 ∨ idsNext < 1 / 10 ^ 12 then (0, false)
    else
      let dVgs := vgs.getD (i+1) 0 - vgs.getD (i-1) 0
      let dLogIds := lg idsNext - lg idsPrev
      if 1 / 10 ^ 9 < |dVgs| ∧ 1 / 100 < dLogIds then
        let s := dLogIds / dVgs
        (s, decide (1/2 < s))
      else (0, false)

/-- The per-index slope array of `calculateSS` (step 1). -/
def ssSlopes (lg : ℚ → ℚ) (ids vgs : List ℚ) : List ℚ :=
  (List.range ids.length).map fun i => (ssSlopeValid lg (ssSmooth ids) vgs ids.length i).1

/-- The per-index validity array of `calculateSS` (step 1). -/
def ssValidList (lg : ℚ → ℚ) (ids vgs : List ℚ) : List Bool :=
  (List.range ids.length).map fun i => (ssSlopeValid lg (ssSmooth ids) vgs ids.length i).2

/-- Scan state of the longest-consistent-run search (step 2 of
`calculateSS`): best run found so far and the currently open run. -/
structure ScanState where
  bestStart : ℕ := 0
  bestLen : ℕ := 0
  currStart : ℕ := 0
  currLen : ℕ := 0
deriving Repr, DecidableEq

/-- One iteration of the step-2 scan loop of `calculateSS` at index `i`. -/
def scanStep (slopes : List ℚ) (valid : List Bool) (st : ScanState) (i : ℕ) : ScanState :=
  if valid.getD i false = false then
    let st1 := if st.bestLen < st.currLen then
      { st with bestStart := st.currStart, bestLen := st.currLen } else st
    { st1 with currLen := 0, currStart := i + 1 }
  else if st.currLen = 0 ∨ valid.getD (i-1) false = false then
    { st with currStart := i, currLen := 1 }
  else
    let ratio := slopes.getD i 0 / slopes.getD (i-1) 0
    if 1/2 < ratio ∧ ratio < 2 then { st with currLen := st.currLen + 1 }
    else
      let st1 := if st.bestLen < st.currLen then
        { st with bestStart := st.currStart, bestLen := st.currLen } else st
      { st1 with currStart := i, currLen := 1 }

/-- Step 2 of `calculateSS`: scan indices `1 ≤ i < n` and return
`(bestStart, bestLen)`, the first-found longest run of consistent slopes. -/
def ssBestRun (slopes : List ℚ) (valid : List Bool) (n : ℕ) : ℕ × ℕ :=
  let st := (List.range' 1 (n-1)).foldl (scanStep slopes valid) {}
  if st.bestLen < st.currLen then (st.currStart, st.currLen) else (st.bestStart, st.bestLen)

/-- The region `(bestStart, bestLen)` selected inside `calculateSS`. -/
def ssRegion (lg : ℚ → ℚ) (ids vgs : List ℚ) : ℕ × ℕ :=
  ssBestRun (ssSlopes lg ids vgs) (ssValidList lg ids vgs) ids.length

/-- Step 3 of `calculateSS`, point collection: the `(Vgs, log10 |Ids|)`
pairs of the selected region whose raw current exceeds the `1e-15` floor. -/
def ssPoints (lg : ℚ → ℚ) (ids vgs : List ℚ) : List (ℚ × ℚ) :=
  let bs := (ssRegion lg ids vgs).1
  let bl := (ssRegion lg ids vgs).2
  let n := ids.length
  (List.range' bs (min bl (n - bs))).filterMap fun i =>
    let val := |ids.getD i 0|
    if 1 / 10 ^ 15 < val then some (vgs.getD i 0, lg val) else none

/-- `math_engine::calculateSS`: region detection followed by a linear
regression of `log10 |Ids|` against `Vgs` over the detected region's
surviving points, accepted only under the slope/R²/range sanity checks. -/
def calculateSS (lg : ℚ → ℚ) (ids vgs : List ℚ) : SSResult :=
  if ids.length ≠ vgs.length ∨ ids.length < 10 then {}
  else
    let bs := (ssRegion lg ids vgs).1
    let bl := (ssRegion lg ids vgs).2
    if 3 ≤ bl then
      let x := (ssPoints lg ids vgs).map Prod.fst
      let y := (ssPoints lg ids vgs).map Prod.snd
      if 3 ≤ x.length then
        let lr := linearRegression x y
        if 1 / 10 ^ 9 < |lr.slope| ∧ 9/10 < lr.r2 then
          let ss_val := (1 / |lr.slope|) * 1000
          if 60 ≤ ss_val ∧ ss_val ≤ 2000 then
            { ss_mVdec := ss_val, valid := true,
              regionStart := bs, regionEnd := bs + bl - 1,
              x1 := x.headD 0, y1 := lr.slope * x.headD 0 + lr.intercept,
              x2 := x.getLastD 0, y2 := lr.slope * x.getLastD 0 + lr.intercept }
          else {}
        else {}
      else {}
    else {}

end math_engine

namespace FileManager

/-- Substring search, the model of `String::indexOf(pat) != -1`. -/
def hasInfix (pat : List Char) : List Char → Bool
  | [] => pat.isPrefixOf []
  | c :: rest => pat.isPrefixOf (c :: rest) || hasInfix pat rest

/-- The character class accepted by `FileManager::isValidFilename`:
`isalnum` (ASCII letters and digits) plus underscore, hyphen and dot. -/
def validChar (c : Char) : Bool :=
  c.isAlphanum || c = '_' || c = '-' || c = '.'

/-- `FileManager::isValidFilename`: a pure predicate on the filename string
(modelled as a character list); it performs no filesystem access.  Rejects
empty and overlong names, the `".."` traversal sequence, both path
separators, characters outside `[A-Za-z0-9_.-]`, and names not ending in
`".csv"`. -/
def isValidFilename (filename : List Char) : Bool :=
  if filename.length = 0 ∨ 100 < filename.length then false
  else if hasInfix ['.', '.'] filename then false
  else if filename.contains '/' then false
  else if filename.contains '\\' then false
  else if !filename.all validChar then false
  else ['.', 'c', 's', 'v'].isSuffixOf filename

/-- `FileManager::extractTimestamp` helper: the numeric value of a digit
string, 0 when the string does not start with a digit (the behaviour of
`String::toInt` on the extracted slice). -/
def parseDigits : List Char → ℕ → ℕ
  | [], acc => acc
  | c :: rest, acc => if c.isDigit then parseDigits rest (acc * 10 + (c.toNat - 48)) else acc

/-- `FileManager::extractTimestamp`: the number embedded between the last
underscore and the last dot of `name_timestamp.csv`, 0 when either marker
is missing. -/
def extractTimestamp (filename : List Char) : ℕ :=
  match filename.findIdxs (· = '_') |>.getLast?, filename.findIdxs (· = '.') |>.getLast? with
  | some lastUnderscore, some dotIndex =>
      parseDigits ((filename.drop (lastUnderscore + 1)).take (dotIndex - (lastUnderscore + 1))) 0
  | _, _ => 0

/-- `FileManager::listFiles`: enumeration of the measurement directory
(modelled as the list of stored filenames), sorted oldest-first by the
timestamp embedded in the filename. -/
def listFiles (fs : List (List Char)) : List (List Char) :=
  fs.mergeSort fun a b => extractTimestamp a ≤ extractTimestamp b

/-- The effect of `FileManager::deleteFile` on the stored-file set: an
invalid name is rejected before any filesystem call; otherwise `FFat.remove`
deletes the named file. -/
def deleteFileFS (fs : List (List Char)) (filename : List Char) : List (List Char) :=
  if isValidFilename filename = false then fs
  else fs.filter (fun f => f ≠ filename)

end FileManager

namespace MOSFETController

/-- The sweep-axis selector (`SWEEP_VGS` is the default mode). -/
inductive SweepMode
  | SWEEP_VGS
  | SWEEP_VDS
deriving Repr, DecidableEq

/-- `SweepConfig`: per-run sweep parameters. -/
structure SweepConfig where
  vgs_start : ℚ
  vgs_end : ℚ
  vgs_step : ℚ
  vds_start : ℚ
  vds_end : ℚ
  vds_step : ℚ
  rshunt : ℚ
  settling_ms : ℤ
  filename : List Char
  sweep_mode : SweepMode
deriving Repr, DecidableEq

/-- The controller's mutable state: the `MOSFETController` member fields
that the modelled operations read or write, plus the measurement directory
content `fs` (the state of the FFat filesystem the controller acts on). -/
structure ControllerState where
  measuring : Bool
  cancelled : Bool
  hasError : Bool
  errorMessage : List Char
  currentVds : ℚ
  progressPercent : ℤ
  config : SweepConfig
  currentFilename : List Char
  fs : List (List Char)
  fileOpen : Bool
deriving Repr, DecidableEq

/-- Filename generation in `startMeasurementAsync`: strip a trailing
`".csv"` from the configured base name and append `"_<now>.csv"`. -/
def genFilename (base : List Char) (now : ℕ) : List Char :=
  let basename := if ['.', 'c', 's', 'v'].isSuffixOf base then base.take (base.length - 4) else base
  basename ++ ['_'] ++ (Nat.repr now).toList ++ ['.', 'c', 's', 'v']

/-- Result of a `startMeasurementAsync` call: the returned boolean, the
controller state afterwards, and whether a worker task was spawned. -/
structure StartResult where
  ok : Bool
  state : ControllerState
  spawned : Bool
deriving Repr, DecidableEq

/-- `MOSFETController::startMeasurementAsync`: admission checks (already
running, voltage envelope, generated-filename validity) followed by state
reset and worker-task creation.  `now` is the current wall-clock time and
`taskCreateOk` models the success of `xTaskCreatePinnedToCore`. -/
def startMeasurementAsync (s : ControllerState) (cfg : SweepConfig) (now : ℕ)
    (taskCreateOk : Bool) : StartResult :=
  if s.measuring then ⟨false, s, false⟩
  else if cfg.vgs_start < 0 ∨ 5 < cfg.vgs_end ∨ 5 < cfg.vds_end then ⟨false, s, false⟩
  else
    let fname := genFilename cfg.filename now
    let s1 := { s with config := cfg, currentFilename := fname }
    if FileManager.isValidFilename fname = false then ⟨false, s1, false⟩
    else
      let s2 := { s1 with measuring := true, cancelled := false, hasError := false,
                          errorMessage := [], currentVds := cfg.vds_start,
                          progressPercent := 0 }
      if taskCreateOk = false then ⟨false, { s2 with measuring := false }, false⟩
      else ⟨true, s2, true⟩

/-- HTTP response outcomes of the `/api/start` handler in `main.cpp`. -/
inductive StartResponse
  | badVgsRange
  | badRshunt
  | storageFull
  | startFailed
  | started
deriving Repr, DecidableEq

/-- `handleStartMeasurement` (main.cpp): request validation, the storage
admission gate (`FileManager::checkStorageAvailable`, modelled by the
`storageOk` flag), then the call into the controller. -/
def handleStartMeasurement (s : ControllerState) (cfg : SweepConfig) (storageOk : Bool)
    (now : ℕ) (taskCreateOk : Bool) : StartResponse × ControllerState × Bool :=
  if cfg.vgs_start < 0 ∨ 5 < cfg.vgs_end then (.badVgsRange, s, false)
  else if cfg.rshunt ≤ 0 then (.badRshunt, s, false)
  else if storageOk = false then (.storageFull, s, false)
  else
    let r := startMeasurementAsync s cfg now taskCreateOk
    (if r.ok then .started else .startFailed, r.state, r.spawned)

/-- `MOSFETController::cancelMeasurement`: a no-op when idle; otherwise set
the cancellation flag, wait for the worker to observe it, close the file,
delete the partial artifact via the storage manager, and clear
`measuring_`. -/
def cancelMeasurement (s : ControllerState) : ControllerState :=
  if s.measuring = false then s
  else
    let s1 := { s with cancelled := true, fileOpen := false }
    let s2 := if s1.currentFilename ≠ [] then
        { s1 with fs := FileManager.deleteFileFS s1.fs s1.currentFilename } else s1
    { s2 with measuring := false }

/-- Iteration count of the C-style loop
`for (float v = s; v <= e; v += step)` under exact rational arithmetic.
A non-positive step with `s ≤ e` never terminates in the source; theorems
about the sweep therefore assume positive steps. -/
def loopCount (s e step : ℚ) : ℕ :=
  if s ≤ e ∧ 0 < step then (⌊(e - s) / step⌋ + 1).toNat else 0

/-- `total_points` as computed at the top of `performSweep` via `(int)`
casts of the range/step quotients. -/
def totalPointsInt (cfg : SweepConfig) : ℤ :=
  match cfg.sweep_mode with
  | .SWEEP_VDS =>
      (math_engine.truncQ ((cfg.vgs_end - cfg.vgs_start) / cfg.vgs_step) + 1) *
      (math_engine.truncQ ((cfg.vds_end - cfg.vds_start) / cfg.vds_step) + 1)
  | .SWEEP_VGS =>
      (math_engine.truncQ ((cfg.vds_end - cfg.vds_start) / cfg.vds_step) + 1) *
      (math_engine.truncQ ((cfg.vgs_end - cfg.vgs_start) / cfg.vgs_step) + 1)

/-- Iteration count of the outer sweep loop of `performSweep`. -/
def sweepOuterCount (cfg : SweepConfig) : ℕ :=
  match cfg.sweep_mode with
  | .SWEEP_VDS => loopCount cfg.vgs_start cfg.vgs_end cfg.vgs_step
  | .SWEEP_VGS => loopCount cfg.vds_start cfg.vds_end cfg.vds_step

/-- Iteration count of the inner sweep loop of `performSweep`. -/
def sweepInnerCount (cfg : SweepConfig) : ℕ :=
  match cfg.sweep_mode with
  | .SWEEP_VDS => loopCount cfg.vds_start cfg.vds_end cfg.vds_step
  | .SWEEP_VGS => loopCount cfg.vgs_start cfg.vgs_end cfg.vgs_step

/-- The number of samples actually taken by a run: all of them, or — when
the loop guard `measuring_ && !cancelled_` turns false after `m` samples —
the samples taken up to that point. -/
def sweepLimit (cfg : SweepConfig) (stopAt : Option ℕ) : ℕ :=
  match stopAt with
  | none => sweepOuterCount cfg * sweepInnerCount cfg
  | some m => min (sweepOuterCount cfg * sweepInnerCount cfg) m

/-- Whether the final `measuring_ && !cancelled_` check of `performSweep`
still sees an uncancelled run. -/
def sweepCompleted (cfg : SweepConfig) (stopAt : Option ℕ) : Bool :=
  match stopAt with
  | none => true
  | some m => decide (sweepOuterCount cfg * sweepInnerCount cfg < m)

/-- Outcome record of one `performSweep` execution: whether `hal::shutdown`
ran before returning, whether any voltage was driven (`hal::setVDS` /
`hal::setVGS` reached), the error fields, the successive values published
to `progressPercent_`, and the number of samples taken. -/
structure SweepRunResult where
  shutdownCalled : Bool
  voltageApplied : Bool
  hasError : Bool
  errorMessage : List Char
  progressLog : List ℤ
  samples : ℕ
deriving Repr, DecidableEq

/-- `MOSFETController::performSweep`: the worker body.  `openOk` models the
success of `FFat.open` on the reserved path; `stopAt = some m` models the
loop guard `measuring_ && !cancelled_` evaluating to false from the point
where `m` samples have been taken (co-operative cancellation), `none` a run
that is never interrupted.  On open failure the routine records the error
and returns at once; otherwise both nested loops run, one progress update
is published per sample, `progressPercent_ = 100` is published on
uncancelled completion, and `hal::shutdown()` runs before returning. -/
def performSweep (cfg : SweepConfig) (openOk : Bool) (stopAt : Option ℕ) : SweepRunResult :=
  if openOk = false then
    { shutdownCalled := false, voltageApplied := false, hasError := true,
      errorMessage := "Failed to open file".toList, progressLog := [], samples := 0 }
  else
    { shutdownCalled := true,
      voltageApplied := decide (0 < sweepLimit cfg stopAt),
      hasError := false,
      errorMessage := [],
      progressLog :=
        ((List.range (sweepLimit cfg stopAt)).map fun (k : ℕ) =>
          (((k : ℤ) + 1) * 100).tdiv (totalPointsInt cfg)) ++
        (if sweepCompleted cfg stopAt then [100] else []),
      samples := sweepLimit cfg stopAt }

end MOSFETController

section ClaimSupport

open math_engine MOSFETController

/-- A concrete sweep configuration used by the C1 theorems. -/
def sweepCexCfg : SweepConfig :=
  { vgs_start := 0, vgs_end := 1, vgs_step := 1/2, vds_start := 0, vds_end := 0,
    vds_step := 1, rshunt := 100, settling_ms := 5,
    filename := ['r', 'u', 'n', '.', 'c', 's', 'v'], sweep_mode := .SWEEP_VGS }

/-- The index characterisation used to state C4: `m` is the index of the
maximum value (first occurrence) of `l`. -/
def isFirstMax (l : List ℚ) (m : ℕ) : Prop :=
  m < l.length ∧ (∀ j < l.length, l.getD j 0 ≤ l.getD m 0) ∧
    ∀ j < m, l.getD j 0 < l.getD m 0

instance (l : List ℚ) (m : ℕ) : Decidable (isFirstMax l m) := by
  unfold isFirstMax
  infer_instance

/-- The transconductance input of the C4 counterexample: max Gm is `1e-13`,
at index 2 of 5 (clear of both boundaries) and strictly positive. -/
def vtCexGm : List ℚ := [0, 1/(2 * 10^13), 1/10^13, 1/(2 * 10^13), 0]

/-- The gate-voltage input of the C4 counterexample. -/
def vtCexVgs : List ℚ := [0, 1, 2, 3, 4]

/-- The current input of the C4 counterexample. -/
def vtCexIds : List ℚ := [0, 0, 1/10^13, 0, 0]

/-- The current vector of the C5 counterexample: the region-start sample
(index 2) carries a raw current of `1e-16`, below the `1e-15` regression
floor, while the smoothed curve around it stays well above the `1e-12`
validity floor. -/
def ssCexIds : List ℚ := [2, 1, 1/10^16, 3, 4, 5, 6, 7, 8, 9, 10, 11]

/-- The gate-voltage vector of the C5 counterexample. -/
def ssCexVgs : List ℚ := [0, 1, 2, 3, 4, 5, 6, 7, 8, 9, 10, 11]

/-- The consistency ratio `slopes[i] / slopes[i-1]` tested by the step-2
scan of `calculateSS`. -/
def ratioAt (slopes : List ℚ) (i : ℕ) : ℚ := slopes.getD i 0 / slopes.getD (i-1) 0

/-- The strict ratio window `(0.5, 2.0)` actually tested by the source. -/
def ratioOk (slopes : List ℚ) (i : ℕ) : Prop :=
  1/2 < ratioAt slopes i ∧ ratioAt slopes i < 2

instance (slopes : List ℚ) (i : ℕ) : Decidable (ratioOk slopes i) := by
  unfold ratioOk
  infer_instance

/-- A contiguous run of valid points, every successive slope ratio inside
the open window `(0.5, 2.0)` — the runs eligible for selection by the
source's scan. -/
def goodRun (slopes : List ℚ) (valid : List Bool) (s len : ℕ) : Prop :=
  0 < len ∧
  (∀ i < s + len, s ≤ i → valid.getD i false = true) ∧
  (∀ i < s + len, s < i → ratioOk slopes i)

instance (slopes : List ℚ) (valid : List Bool) (s len : ℕ) :
    Decidable (goodRun slopes valid s len) := by
  unfold goodRun
  infer_instance

/-- A contiguous run of valid points with successive slope ratios in the
closed window `[0.5, 2.0]` — the run notion of claim C6 as stated. -/
def goodRunClosed (slopes : List ℚ) (valid : List Bool) (s len : ℕ) : Prop :=
  0 < len ∧
  (∀ i < s + len, s ≤ i → valid.getD i false = true) ∧
  (∀ i < s + len, s < i → (1/2 ≤ ratioAt slopes i ∧ ratioAt slopes i ≤ 2))

instance (slopes : List ℚ) (valid : List Bool) (s len : ℕ) :
    Decidable (goodRunClosed slopes valid s len) := by
  unfold goodRunClosed
  infer_instance

/-- No run can cross index `c` as an interior transition: the point before
`c` is invalid or the ratio at `c` fails.  This is the state of affairs at
the start of every run opened by the scan. -/
def blockedAt (slopes : List ℚ) (valid : List Bool) (c : ℕ) : Prop :=
  valid.getD (c-1) false = false ∨ ¬ ratioOk slopes c

/-- The invariant carried through the step-2 scan of `calculateSS`:
before index `i` is processed, `curr` is the longest run ending exactly at
`i`, `best` is the first-found longest run among those ending at or before
the start of `curr`, and `curr` cannot be extended to the left. -/
structure ScanInv (slopes : List ℚ) (valid : List Bool) (i : ℕ) (st : ScanState) : Prop where
  curr_max : ∀ s l, goodRun slopes valid s l → s + l = i → l ≤ st.currLen
  curr_good : 0 < st.currLen →
    goodRun slopes valid st.currStart st.currLen ∧ st.currStart + st.currLen = i
  best_max : ∀ s l, goodRun slopes valid s l → s + l + st.currLen ≤ i → l ≤ st.bestLen
  best_good : 0 < st.bestLen →
    goodRun slopes valid st.bestStart st.bestLen ∧ st.bestStart + st.bestLen + st.currLen ≤ i
  best_first : ∀ s l, goodRun slopes valid s l → s + l + st.currLen ≤ i →
    l = st.bestLen → st.bestStart ≤ s
  curr_blocked : 0 < st.currLen → blockedAt slopes valid st.currStart

/-- The current vector of the C6 counterexample (`lg` is read off a table,
so the raw values only need to be distinct after smoothing). -/
def runCexIds : List ℚ := [1, 2, 3, 4, 5, 6, 7, 8, 9, 10, 11, 12]

/-- The gate-voltage vector of the C6 counterexample. -/
def runCexVgs : List ℚ := [0, 1, 2, 3, 4, 5, 6, 7, 8, 9, 10, 11]

/-- The `log10` model of the C6 counterexample: a lookup table on the
twelve smoothed current values, chosen so that the step-1 slopes become
`[_, 0.25, 0.6, 1.2, 1.2, 1.2, 0.2, …]` — valid exactly at indices 2–5,
with the ratio between the slopes at indices 2 and 3 exactly 2.0. -/
def runCexLg : ℚ → ℚ := fun q =>
  if q = 2 then 0 else if q = 5/2 then 0 else if q = 3 then 1/2
  else if q = 4 then 6/5 else if q = 5 then 29/10 else if q = 6 then 18/5
  else if q = 7 then 53/10 else if q = 8 then 4 else if q = 9 then 57/10
  else if q = 10 then 22/5 else if q = 21/2 then 61/10 else if q = 11 then 24/5
  else 0

end ClaimSupport

section ClaimC8

open math_engine

/-- Claim C8: for every pair of input vectors `ids`, `vgs` that differ in
length or hold fewer than 10 samples, `calculateSS` returns normally with
the invalid default result: `valid = false` and `ss_mVdec = 0` (and, being a
total function of its inputs, it raises no error). -/
theorem C8_calculateSS_short_input_invalid (lg : ℚ → ℚ) (ids vgs : List ℚ)
    (h : ids.length ≠ vgs.length ∨ ids.length < 10) :
    calculateSS lg ids vgs = {} ∧
    (calculateSS lg ids vgs).valid = false ∧ (calculateSS lg ids vgs).ss_mVdec = 0 := by
  have he : calculateSS lg ids vgs = {} := by
    unfold calculateSS
    rw [if_pos h]
  exact ⟨he, by rw [he], by rw [he]⟩

/-- Witness for C8 at a concrete short input. -/
theorem C8_calculateSS_short_input_invalid_witness :
    (([(1 : ℚ), 2, 3].length ≠ [(0 : ℚ), 1, 2].length ∨ [(1 : ℚ), 2, 3].length < 10) ∧
      calculateSS id [(1 : ℚ), 2, 3] [(0 : ℚ), 1, 2] = {}) :=
  ⟨by decide, (C8_calculateSS_short_input_invalid id [1, 2, 3] [0, 1, 2] (by decide)).1⟩

end ClaimC8

section ClaimC10

open math_engine

/-- Claim C10: for equal-length inputs with at least 2 points and an
x-variance denominator of magnitude at least `1e-12`, an essentially
constant `y` (total sum of squares below `1e-12`) makes `linearRegression`
return R² = 1 — in contrast with the R² = 0 of the degenerate cases
(fewer than 2 points, or near-zero x-variance). -/
theorem C10_linearRegression_constant_y_r2_one :
    (∀ x y : List ℚ, x.length = y.length → 2 ≤ x.length →
      ¬ |regressionDenom x| < 1 / 10 ^ 12 → ssTotOf y < 1 / 10 ^ 12 →
      (linearRegression x y).r2 = 1) ∧
    (∀ x y : List ℚ, x.length ≠ y.length ∨ x.length < 2 → (linearRegression x y).r2 = 0) ∧
    (∀ x y : List ℚ, x.length = y.length → 2 ≤ x.length →
      |regressionDenom x| < 1 / 10 ^ 12 → (linearRegression x y).r2 = 0) := by
  refine ⟨fun x y hlen h2 hden htot => ?_, fun x y h => ?_, fun x y hlen h2 hden => ?_⟩
  · unfold linearRegression
    rw [if_neg (by omega), if_neg hden, if_pos htot]
  · unfold linearRegression
    rw [if_pos h]
  · unfold linearRegression
    rw [if_neg (by omega), if_pos hden]

/-- Witness for C10 at `x = [0, 1]`, `y = [5, 5]` (constant `y`). -/
theorem C10_linearRegression_constant_y_r2_one_witness :
    ([(0 : ℚ), 1].length = [(5 : ℚ), 5].length ∧ 2 ≤ [(0 : ℚ), 1].length ∧
      ¬ |regressionDenom [(0 : ℚ), 1]| < 1 / 10 ^ 12 ∧
      ssTotOf [(5 : ℚ), 5] < 1 / 10 ^ 12) ∧
    (linearRegression [(0 : ℚ), 1] [(5 : ℚ), 5]).r2 = 1 :=
  ⟨⟨rfl, by decide, by with_unfolding_all decide, by with_unfolding_all decide⟩,
    C10_linearRegression_constant_y_r2_one.1 [0, 1] [5, 5]
      rfl (by decide) (by with_unfolding_all decide) (by with_unfolding_all decide)⟩

end ClaimC10

section ClaimC1

open MOSFETController

/-- Counterexample to claim C1 as stated: when the output file fails to
open at the start of the sweep, `performSweep` records the I/O error and
returns without invoking `hal::shutdown()` — the file-open-failure terminal
path does not drive the outputs to zero via `hal::shutdown`. -/
theorem C1_counterexample_open_failure_no_shutdown :
    (performSweep sweepCexCfg false none).hasError = true ∧
    (performSweep sweepCexCfg false none).errorMessage = "Failed to open file".toList ∧
    (performSweep sweepCexCfg false none).shutdownCalled = false := by
  refine ⟨rfl, rfl, rfl⟩

/-- Claim C1, amended: on every terminal path of `performSweep` that passes
the initial file open — normal completion and co-operative cancellation at
any point (`stopAt`) — `hal::shutdown()` is invoked before the routine
returns; when the file open fails, the routine records the error and
returns without invoking `hal::shutdown()`, but on that path no voltage has
been driven by this sweep (`hal::setVDS`/`hal::setVGS` are never reached). -/
theorem C1_shutdown_on_all_paths_after_open (cfg : SweepConfig) (stopAt : Option ℕ)
    (hgs : 0 < cfg.vgs_step) (hds : 0 < cfg.vds_step) :
    (performSweep cfg true stopAt).shutdownCalled = true ∧
    (performSweep cfg false stopAt).shutdownCalled = false ∧
    (performSweep cfg false stopAt).hasError = true ∧
    (performSweep cfg false stopAt).voltageApplied = false := by
  exact ⟨rfl, rfl, rfl, rfl⟩

/-- Witness for C1 at the concrete configuration. -/
theorem C1_shutdown_on_all_paths_after_open_witness :
    (0 < sweepCexCfg.vgs_step ∧ 0 < sweepCexCfg.vds_step) ∧
    (performSweep sweepCexCfg true (some 2)).shutdownCalled = true :=
  ⟨⟨by with_unfolding_all decide, by with_unfolding_all decide⟩,
    (C1_shutdown_on_all_paths_after_open sweepCexCfg (some 2)
      (by with_unfolding_all decide) (by with_unfolding_all decide)).1⟩

end ClaimC1

section ClaimC2

open MOSFETController

/-- `startMeasurementAsync` on a controller that is already measuring is a
rejection without side effects. -/
theorem start_when_measuring (s : ControllerState) (cfg : SweepConfig) (now : ℕ) (tok : Bool)
    (hm : s.measuring = true) :
    startMeasurementAsync s cfg now tok = ⟨false, s, false⟩ := by
  simp only [startMeasurementAsync]
  rw [if_pos hm]

/-- A successful `startMeasurementAsync` leaves the controller measuring,
with a validated reserved filename and progress reset to 0. -/
theorem start_ok_fields (s : ControllerState) (cfg : SweepConfig) (now : ℕ) (tok : Bool) :
    (startMeasurementAsync s cfg now tok).ok = true →
      (startMeasurementAsync s cfg now tok).state.measuring = true ∧
      FileManager.isValidFilename (startMeasurementAsync s cfg now tok).state.currentFilename
        = true ∧
      (startMeasurementAsync s cfg now tok).state.progressPercent = 0 := by
  simp only [startMeasurementAsync]
  split
  · simp
  · split
    · simp
    · split
      · simp
      · rename_i hval
        split
        · simp
        · intro _
          refine ⟨rfl, ?_, rfl⟩
          simpa using hval

/-- Claim C2: the start path rejects synchronously and without side effects
— returning a non-`started` response, leaving the controller state (its
measuring flag, progress and stored configuration included) unchanged and
spawning no worker — whenever another sweep is running, the voltage ranges
leave the safe envelope, or the storage-capacity check fails; moreover a
second `startMeasurementAsync` issued right after a successful one is
rejected without side effects while the first run is in progress. -/
theorem C2_start_admission_rejects_without_side_effects :
    (∀ (s : ControllerState) (cfg : SweepConfig) (storageOk : Bool) (now : ℕ) (tok : Bool),
      (s.measuring = true ∨ cfg.vgs_start < 0 ∨ 5 < cfg.vgs_end ∨ 5 < cfg.vds_end ∨
        storageOk = false) →
      (handleStartMeasurement s cfg storageOk now tok).1 ≠ .started ∧
      (handleStartMeasurement s cfg storageOk now tok).2.1 = s ∧
      (handleStartMeasurement s cfg storageOk now tok).2.2 = false) ∧
    (∀ (s : ControllerState) (cfg : SweepConfig) (now : ℕ) (cfg₂ : SweepConfig) (now₂ : ℕ)
      (tok₂ : Bool), (startMeasurementAsync s cfg now true).ok = true →
      startMeasurementAsync (startMeasurementAsync s cfg now true).state cfg₂ now₂ tok₂ =
        ⟨false, (startMeasurementAsync s cfg now true).state, false⟩) := by
  constructor
  · intro s cfg storageOk now tok h
    unfold handleStartMeasurement
    by_cases h1 : cfg.vgs_start < 0 ∨ 5 < cfg.vgs_end
    · rw [if_pos h1]; exact ⟨by simp, rfl, rfl⟩
    · rw [if_neg h1]
      by_cases h2 : cfg.rshunt ≤ 0
      · rw [if_pos h2]; exact ⟨by simp, rfl, rfl⟩
      · rw [if_neg h2]
        by_cases h3 : storageOk = false
        · rw [if_pos h3]; exact ⟨by simp, rfl, rfl⟩
        · rw [if_neg h3]
          have hrej : startMeasurementAsync s cfg now tok = ⟨false, s, false⟩ := by
            by_cases hm : s.measuring = true
            · exact start_when_measuring s cfg now tok hm
            · have hv : cfg.vgs_start < 0 ∨ 5 < cfg.vgs_end ∨ 5 < cfg.vds_end := by
                rcases h with hm' | hv | hv | hv | hst
                · exact absurd hm' hm
                · exact Or.inl hv
                · exact Or.inr (Or.inl hv)
                · exact Or.inr (Or.inr hv)
                · exact absurd hst h3
              simp only [startMeasurementAsync]
              rw [if_neg hm, if_pos hv]
          rw [hrej]
          exact ⟨by simp, rfl, rfl⟩
  · intro s cfg now cfg₂ now₂ tok₂ h
    exact start_when_measuring _ cfg₂ now₂ tok₂ (start_ok_fields s cfg now true h).1

/-- Witness for C2: a concrete rejected second start. -/
theorem C2_start_admission_rejects_without_side_effects_witness :
    ((startMeasurementAsync
        ⟨false, false, false, [], 0, 0, sweepCexCfg, [], [], false⟩
        sweepCexCfg 1700000000 true).ok = true) ∧
    (handleStartMeasurement
        (startMeasurementAsync
          ⟨false, false, false, [], 0, 0, sweepCexCfg, [], [], false⟩
          sweepCexCfg 1700000000 true).state
        sweepCexCfg true 1700000001 true).1 ≠ .started := by
  constructor
  · with_unfolding_all decide
  · exact (C2_start_admission_rejects_without_side_effects.1
      (startMeasurementAsync
        ⟨false, false, false, [], 0, 0, sweepCexCfg, [], [], false⟩
        sweepCexCfg 1700000000 true).state
      sweepCexCfg true 1700000001 true
      (Or.inl (start_ok_fields _ _ _ _ (by with_unfolding_all decide)).1)).1

end ClaimC2

section ClaimC3

open MOSFETController

/-- A filename accepted by `FileManager::isValidFilename` is non-empty. -/
theorem validFilename_ne_nil (f : List Char) (h : FileManager.isValidFilename f = true) :
    f ≠ [] := by
  intro hnil
  subst hnil
  simp [FileManager.isValidFilename] at h

/-- After `FileManager::deleteFile` of a valid name, the name is absent
from the stored-file set. -/
theorem deleteFileFS_not_mem (fs : List (List Char)) (name : List Char)
    (hv : FileManager.isValidFilename name = true) :
    name ∉ FileManager.deleteFileFS fs name := by
  unfold FileManager.deleteFileFS
  rw [if_neg (by simp [hv])]
  intro hmem
  have := (List.mem_filter.mp hmem).2
  simp at this

/-- Claim C3: if a sweep was admitted (`startMeasurementAsync` succeeded,
reserving a validated filename) and `cancelMeasurement` is invoked while it
is running — whatever the measurement directory `fsMid` holds by then,
including the partial output file — then after cancellation the file handle
is closed, the controller is no longer measuring, and the reserved filename
does not appear in the Storage Manager's enumeration (`listFiles`). -/
theorem C3_cancel_deletes_partial_artifact (s : ControllerState) (cfg : SweepConfig)
    (now : ℕ) (fsMid : List (List Char)) (fileOpenMid : Bool)
    (h : (startMeasurementAsync s cfg now true).ok = true) :
    (startMeasurementAsync s cfg now true).state.currentFilename ∉
      FileManager.listFiles
        (cancelMeasurement
          { (startMeasurementAsync s cfg now true).state with
              fs := fsMid, fileOpen := fileOpenMid }).fs ∧
    (cancelMeasurement
      { (startMeasurementAsync s cfg now true).state with
          fs := fsMid, fileOpen := fileOpenMid }).fileOpen = false ∧
    (cancelMeasurement
      { (startMeasurementAsync s cfg now true).state with
          fs := fsMid, fileOpen := fileOpenMid }).measuring = false := by
  obtain ⟨hm, hv, -⟩ := start_ok_fields s cfg now true h
  set st := (startMeasurementAsync s cfg now true).state with hst
  have hne : st.currentFilename ≠ [] := validFilename_ne_nil _ hv
  have hcancel :
      cancelMeasurement { st with fs := fsMid, fileOpen := fileOpenMid } =
        { st with fs := FileManager.deleteFileFS fsMid st.currentFilename,
                  fileOpen := false, cancelled := true, measuring := false } := by
    unfold cancelMeasurement
    rw [if_neg (by simp [hm])]
    simp only [hne, ne_eq, not_false_eq_true, if_pos]
  rw [hcancel]
  refine ⟨?_, rfl, rfl⟩
  intro hmem
  rw [FileManager.listFiles, List.mem_mergeSort] at hmem
  exact deleteFileFS_not_mem fsMid st.currentFilename hv hmem

/-- Witness for C3 at a concrete idle state, configuration and mid-sweep
directory content (which contains the partial file). -/
theorem C3_cancel_deletes_partial_artifact_witness :
    ((startMeasurementAsync ⟨false, false, false, [], 0, 0, sweepCexCfg, [], [], false⟩
        sweepCexCfg 1700000000 true).ok = true) ∧
    (startMeasurementAsync ⟨false, false, false, [], 0, 0, sweepCexCfg, [], [], false⟩
        sweepCexCfg 1700000000 true).state.currentFilename ∉
      FileManager.listFiles
        (cancelMeasurement
          { (startMeasurementAsync ⟨false, false, false, [], 0, 0, sweepCexCfg, [], [], false⟩
              sweepCexCfg 1700000000 true).state with
              fs := ["run_1700000000.csv".toList, "old_5.csv".toList],
              fileOpen := true }).fs :=
  ⟨by with_unfolding_all decide,
    (C3_cancel_deletes_partial_artifact
      ⟨false, false, false, [], 0, 0, sweepCexCfg, [], [], false⟩ sweepCexCfg 1700000000
      ["run_1700000000.csv".toList, "old_5.csv".toList] true
      (by with_unfolding_all decide)).1⟩

end ClaimC3

section ClaimC9

open MOSFETController math_engine

/-- For a positive step and non-empty range, the loop iteration count
agrees with the `(int)`-cast formula used for `total_points`. -/
theorem loopCount_cast (s e step : ℚ) (hstep : 0 < step) (h : s ≤ e) :
    (loopCount s e step : ℤ) = truncQ ((e - s) / step) + 1 := by
  have h0 : (0 : ℚ) ≤ (e - s) / step := div_nonneg (by linarith) hstep.le
  unfold loopCount truncQ
  rw [if_pos ⟨h, hstep⟩, if_pos h0]
  have hf : 0 ≤ ⌊(e - s) / step⌋ := Int.floor_nonneg.mpr h0
  omega

/-- A positive loop count forces a non-empty range. -/
theorem loopCount_pos_le (s e step : ℚ) (h : 0 < loopCount s e step) : s ≤ e := by
  unfold loopCount at h
  by_cases hc : s ≤ e ∧ 0 < step
  · exact hc.1
  · rw [if_neg hc] at h
    exact absurd h (by omega)

/-- When both loops are non-empty, `total_points` as computed by the source
equals the exact product of the two loop iteration counts. -/
theorem totalPoints_eq (cfg : SweepConfig) (hgs : 0 < cfg.vgs_step) (hds : 0 < cfg.vds_step)
    (ho : 0 < sweepOuterCount cfg) (hi : 0 < sweepInnerCount cfg) :
    totalPointsInt cfg = ((sweepOuterCount cfg * sweepInnerCount cfg : ℕ) : ℤ) := by
  have key : ∀ s e st : ℚ, 0 < st → 0 < loopCount s e st →
      truncQ ((e - s) / st) + 1 = (loopCount s e st : ℤ) := fun s e st hst hp =>
    (loopCount_cast s e st hst (loopCount_pos_le _ _ _ hp)).symm
  cases hm : cfg.sweep_mode
  · simp only [totalPointsInt, sweepOuterCount, sweepInnerCount, hm] at ho hi ⊢
    rw [key _ _ _ hds ho, key _ _ _ hgs hi]
    push_cast
    ring
  · simp only [totalPointsInt, sweepOuterCount, sweepInnerCount, hm] at ho hi ⊢
    rw [key _ _ _ hgs ho, key _ _ _ hds hi]
    push_cast
    ring

/-- The per-sample progress values `(k·100)/total` are monotone in the
sample counter for a positive total. -/
theorem progress_entry_mono (T : ℤ) (hT : 0 < T) (a b : ℤ) (ha : 0 ≤ a) (hab : a ≤ b) :
    a.tdiv T ≤ b.tdiv T := by
  rw [Int.tdiv_eq_ediv ha hT.le, Int.tdiv_eq_ediv (le_trans ha hab) hT.le]
  exact Int.ediv_le_ediv hT hab

/-- The per-sample progress list of a run is a monotone chain. -/
theorem progress_map_chain (T : ℤ) (n : ℕ) (hT : 0 < n → 0 < T) :
    List.Chain' (· ≤ ·)
      ((List.range n).map fun (k : ℕ) => (((k : ℤ) + 1) * 100).tdiv T) := by
  cases n with
  | zero => simp
  | succ m =>
    rw [List.chain'_map]
    rw [show m + 1 = m.succ from rfl, List.chain'_range_succ]
    intro j hj
    apply progress_entry_mono T (hT (Nat.succ_pos m)) _ _ (by positivity)
    push_cast
    linarith

/-- Every entry of the per-sample progress list is at most 100 once the
run has completed all `T` samples. -/
theorem progress_map_last (T : ℤ) (n : ℕ) (hn : (n : ℤ) = T) :
    ∀ x ∈ ((List.range n).map fun (k : ℕ) => (((k : ℤ) + 1) * 100).tdiv T).getLast?,
      x ≤ (100 : ℤ) := by
  cases n with
  | zero => simp
  | succ m =>
    intro x hx
    rw [List.range_succ, List.map_append] at hx
    simp only [List.map_cons, List.map_nil, List.getLast?_concat, Option.mem_def,
      Option.some.injEq] at hx
    subst hx
    have hm1 : ((m : ℤ) + 1) = T := by exact_mod_cast hn
    rw [hm1, Int.mul_tdiv_cancel_left 100 (by omega)]

/-- A completed run has taken all of its samples. -/
theorem completed_limit (cfg : SweepConfig) (stopAt : Option ℕ)
    (h : sweepCompleted cfg stopAt = true) :
    sweepLimit cfg stopAt = sweepOuterCount cfg * sweepInnerCount cfg := by
  cases stopAt with
  | none => rfl
  | some m =>
    simp only [sweepCompleted, decide_eq_true_eq] at h
    exact min_eq_left h.le

/-- Claim C9: within one run the published `progress_percent` sequence is
monotonically non-decreasing — it is derived from a sample counter that
only increments and a fixed positive total — and a successful
`startMeasurementAsync` resets the published progress to 0 when the next
sweep is started. -/
theorem C9_progress_monotone_and_reset (cfg : SweepConfig) (openOk : Bool)
    (stopAt : Option ℕ) (hgs : 0 < cfg.vgs_step) (hds : 0 < cfg.vds_step) :
    List.Chain' (· ≤ ·) (performSweep cfg openOk stopAt).progressLog ∧
    (∀ (s : ControllerState) (cfg₂ : SweepConfig) (now : ℕ) (tok : Bool),
      (startMeasurementAsync s cfg₂ now tok).ok = true →
      (startMeasurementAsync s cfg₂ now tok).state.progressPercent = 0) := by
  refine ⟨?_, fun s cfg₂ now tok h => (start_ok_fields s cfg₂ now tok h).2.2⟩
  by_cases hopen : openOk = false
  · simp [performSweep, hopen]
  · have hlog : (performSweep cfg openOk stopAt).progressLog =
        ((List.range (sweepLimit cfg stopAt)).map fun (k : ℕ) =>
          (((k : ℤ) + 1) * 100).tdiv (totalPointsInt cfg)) ++
        (if sweepCompleted cfg stopAt then [100] else []) := by
      unfold performSweep
      rw [if_neg hopen]
    rw [hlog]
    have hTpos : 0 < sweepLimit cfg stopAt →
        0 < totalPointsInt cfg ∧
        totalPointsInt cfg = ((sweepOuterCount cfg * sweepInnerCount cfg : ℕ) : ℤ) := by
      intro hl
      have htot : 0 < sweepOuterCount cfg * sweepInnerCount cfg := by
        unfold sweepLimit at hl
        cases stopAt with
        | none => exact hl
        | some m => exact (lt_min_iff.mp hl).1
      have ho : 0 < sweepOuterCount cfg := by
        rcases Nat.eq_zero_or_pos (sweepOuterCount cfg) with h0 | h
        · rw [h0] at htot; simp at htot
        · exact h
      have hi : 0 < sweepInnerCount cfg := by
        rcases Nat.eq_zero_or_pos (sweepInnerCount cfg) with h0 | h
        · rw [h0] at htot; simp at htot
        · exact h
      have he := totalPoints_eq cfg hgs hds ho hi
      exact ⟨by rw [he]; exact_mod_cast htot, he⟩
    rw [List.chain'_append]
    refine ⟨progress_map_chain _ _ (fun hl => (hTpos hl).1), ?_, ?_⟩
    · split <;> simp
    · intro x hx y hy
      by_cases hc : sweepCompleted cfg stopAt = true
      · rw [if_pos hc] at hy
        simp only [List.head?_cons, Option.mem_def, Option.some.injEq] at hy
        subst hy
        have hlpos : 0 < sweepLimit cfg stopAt := by
          rcases Nat.eq_zero_or_pos (sweepLimit cfg stopAt) with h0 | h
          · rw [h0] at hx; simp at hx
          · exact h
        have hlim := completed_limit cfg stopAt hc
        have hT := (hTpos hlpos).2
        exact progress_map_last (totalPointsInt cfg) (sweepLimit cfg stopAt)
          (by rw [hT, hlim]) x hx
      · rw [if_neg hc] at hy
        simp at hy

/-- Witness for C9 at the concrete configuration. -/
theorem C9_progress_monotone_and_reset_witness :
    (0 < sweepCexCfg.vgs_step ∧ 0 < sweepCexCfg.vds_step) ∧
    List.Chain' (· ≤ ·) (performSweep sweepCexCfg true (some 2)).progressLog :=
  ⟨⟨by with_unfolding_all decide, by with_unfolding_all decide⟩,
    (C9_progress_monotone_and_reset sweepCexCfg true (some 2)
      (by with_unfolding_all decide) (by with_unfolding_all decide)).1⟩

end ClaimC9

section ClaimC4

open math_engine

/-- `argmaxFirst` returns an in-range index on non-empty lists. -/
theorem argmaxFirst_lt_length : ∀ (l : List ℚ), l ≠ [] → argmaxFirst l < l.length := by
  intro l
  induction l with
  | nil => intro h; exact absurd rfl h
  | cons a t ih =>
    intro _
    cases t with
    | nil => simp [argmaxFirst]
    | cons b r =>
      simp only [argmaxFirst]
      split
      · simp
      · have := ih (by simp)
        simpa [Nat.succ_lt_succ_iff] using this

/-- The element at `argmaxFirst` dominates every element of the list. -/
theorem argmaxFirst_le : ∀ (l : List ℚ) (j : ℕ), j < l.length →
    l.getD j 0 ≤ l.getD (argmaxFirst l) 0 := by
  intro l
  induction l with
  | nil => intro j hj; simp at hj
  | cons a t ih =>
    intro j hj
    cases t with
    | nil =>
      cases j with
      | zero => simp [argmaxFirst]
      | succ j' => simp at hj
    | cons b r =>
      simp only [argmaxFirst]
      split
      · rename_i hcond
        rw [List.getD_cons_zero]
        cases j with
        | zero => simp
        | succ j' =>
          rw [List.getD_cons_succ]
          exact le_trans (ih j' (by simpa [Nat.succ_lt_succ_iff] using hj)) hcond
      · rename_i hcond
        rw [List.getD_cons_succ]
        cases j with
        | zero =>
          rw [List.getD_cons_zero]
          exact (not_le.mp hcond).le
        | succ j' =>
          rw [List.getD_cons_succ]
          exact ih j' (by simpa [Nat.succ_lt_succ_iff] using hj)

/-- `argmaxFirst` returns the first maximising index: every earlier element
is strictly smaller. -/
theorem argmaxFirst_first : ∀ (l : List ℚ) (j : ℕ), j < argmaxFirst l →
    l.getD j 0 < l.getD (argmaxFirst l) 0 := by
  intro l
  induction l with
  | nil => intro j hj; simp [argmaxFirst] at hj
  | cons a t ih =>
    intro j hj
    cases t with
    | nil => simp [argmaxFirst] at hj
    | cons b r =>
      simp only [argmaxFirst] at hj ⊢
      split at hj
      · exact absurd hj (by omega)
      · rename_i hcond
        rw [if_neg hcond, List.getD_cons_succ]
        cases j with
        | zero =>
          rw [List.getD_cons_zero]
          exact not_le.mp hcond
        | succ j' =>
          rw [List.getD_cons_succ]
          exact ih j' (by omega)

/-- `calculateGm` preserves the input length. -/
theorem calculateGm_length (ids vgs : List ℚ) (c : GmConfig) :
    (calculateGm ids vgs c).length = ids.length := by
  unfold calculateGm
  split
  · simp
  · simp

/-- Claim C4, amended: for equal-length `gm`, `vgs`, `ids` with at least 5
samples, `calculateVt` locates the first index `m` of maximum
transconductance; it returns 0 when that index is within 2 samples of a
boundary or the maximum is non-positive; when additionally the maximum
exceeds `1e-12` it computes `Vt = Vgs[m] − Ids[m]/Gm[m]` and returns it if
`0 < Vt < Vgs[m]`; in every other case it falls back to the first peak
index `k` of the second derivative (obtained by re-invoking `calculateGm`
on the `gm` vector) and returns `vgs[k]` when `k > 0`, and 0 when the peak
sits at index 0. -/
theorem C4_calculateVt_structure (gm vgs ids : List ℚ)
    (hlen : gm.length = vgs.length) (h5 : 5 ≤ gm.length) :
    ∃ m k, isFirstMax gm m ∧ isFirstMax (calculateGm gm vgs {}) k ∧
      calculateVt gm vgs ids =
        (if gm.getD m 0 ≤ 0 ∨ m < 2 ∨ gm.length - 2 ≤ m then 0
         else if 1 / 10 ^ 12 < gm.getD m 0 ∧
             0 < vgs.getD m 0 - ids.getD m 0 / gm.getD m 0 ∧
             vgs.getD m 0 - ids.getD m 0 / gm.getD m 0 < vgs.getD m 0 then
           vgs.getD m 0 - ids.getD m 0 / gm.getD m 0
         else if 0 < argmaxFirst (calculateGm gm vgs {}) ∧
             argmaxFirst (calculateGm gm vgs {}) < vgs.length then
           vgs.getD (argmaxFirst (calculateGm gm vgs {})) 0
         else 0) := by
  have hgm_ne : gm ≠ [] := by
    intro h0
    rw [h0] at h5
    simp at h5
  have hd2_ne : calculateGm gm vgs {} ≠ [] := by
    intro h0
    have := calculateGm_length gm vgs {}
    rw [h0] at this
    simp at this
    omega
  refine ⟨argmaxFirst gm, argmaxFirst (calculateGm gm vgs {}),
    ⟨argmaxFirst_lt_length gm hgm_ne, fun j hj => argmaxFirst_le gm j hj,
      fun j hj => argmaxFirst_first gm j hj⟩,
    ⟨argmaxFirst_lt_length _ hd2_ne, fun j hj => argmaxFirst_le _ j hj,
      fun j hj => argmaxFirst_first _ j hj⟩, ?_⟩
  unfold calculateVt
  rw [if_neg (by omega)]

/-- Witness for C4 at a concrete input that takes the direct
extrapolation branch. -/
theorem C4_calculateVt_structure_witness :
    (([(0 : ℚ), 1, 2, 1, 0] : List ℚ).length = ([(0 : ℚ), 1, 2, 3, 4] : List ℚ).length ∧
      5 ≤ ([(0 : ℚ), 1, 2, 1, 0] : List ℚ).length) ∧
    ∃ m k, isFirstMax [(0 : ℚ), 1, 2, 1, 0] m ∧
      isFirstMax (calculateGm [(0 : ℚ), 1, 2, 1, 0] [(0 : ℚ), 1, 2, 3, 4] {}) k ∧
      calculateVt [(0 : ℚ), 1, 2, 1, 0] [(0 : ℚ), 1, 2, 3, 4] [(0 : ℚ), 0, 1, 0, 0] =
        (if ([(0 : ℚ), 1, 2, 1, 0] : List ℚ).getD m 0 ≤ 0 ∨ m < 2 ∨
            ([(0 : ℚ), 1, 2, 1, 0] : List ℚ).length - 2 ≤ m then 0
         else if 1 / 10 ^ 12 < ([(0 : ℚ), 1, 2, 1, 0] : List ℚ).getD m 0 ∧
             0 < ([(0 : ℚ), 1, 2, 3, 4] : List ℚ).getD m 0 -
               ([(0 : ℚ), 0, 1, 0, 0] : List ℚ).getD m 0 /
                 ([(0 : ℚ), 1, 2, 1, 0] : List ℚ).getD m 0 ∧
             ([(0 : ℚ), 1, 2, 3, 4] : List ℚ).getD m 0 -
               ([(0 : ℚ), 0, 1, 0, 0] : List ℚ).getD m 0 /
                 ([(0 : ℚ), 1, 2, 1, 0] : List ℚ).getD m 0 <
               ([(0 : ℚ), 1, 2, 3, 4] : List ℚ).getD m 0 then
           ([(0 : ℚ), 1, 2, 3, 4] : List ℚ).getD m 0 -
             ([(0 : ℚ), 0, 1, 0, 0] : List ℚ).getD m 0 /
               ([(0 : ℚ), 1, 2, 1, 0] : List ℚ).getD m 0
         else if 0 < argmaxFirst (calculateGm [(0 : ℚ), 1, 2, 1, 0] [(0 : ℚ), 1, 2, 3, 4] {}) ∧
             argmaxFirst (calculateGm [(0 : ℚ), 1, 2, 1, 0] [(0 : ℚ), 1, 2, 3, 4] {}) <
               ([(0 : ℚ), 1, 2, 3, 4] : List ℚ).length then
           ([(0 : ℚ), 1, 2, 3, 4] : List ℚ).getD
             (argmaxFirst (calculateGm [(0 : ℚ), 1, 2, 1, 0] [(0 : ℚ), 1, 2, 3, 4] {})) 0
         else 0) :=
  ⟨⟨rfl, by decide⟩,
    C4_calculateVt_structure [0, 1, 2, 1, 0] [0, 1, 2, 3, 4] [0, 0, 1, 0, 0] rfl (by decide)⟩

/-- Counterexample to claim C4 as stated: here the index of maximum
transconductance is 2 (more than 2 samples clear of either boundary), the
maximum `1e-13` is positive, and the extrapolated
`Vt = Vgs[2] − Ids[2]/Gm[2] = 1` satisfies `0 < Vt < Vgs[2] = 2` — so the
claim demands that `calculateVt` return 1 — yet the source skips the
extrapolation entirely for `maxGm ≤ 1e-12`, falls back to the second
derivative, whose first peak sits at index 0, and returns 0. -/
theorem C4_counterexample :
    isFirstMax vtCexGm 2 ∧ vtCexGm.length = vtCexVgs.length ∧ 5 ≤ vtCexGm.length ∧
    (0 : ℚ) < vtCexGm.getD 2 0 ∧
    vtCexVgs.getD 2 0 - vtCexIds.getD 2 0 / vtCexGm.getD 2 0 = 1 ∧
    (0 : ℚ) < 1 ∧ (1 : ℚ) < vtCexVgs.getD 2 0 ∧
    calculateVt vtCexGm vtCexVgs vtCexIds = 0 := by
  refine ⟨?_, rfl, by decide, ?_, ?_, ?_, ?_, ?_⟩ <;> with_unfolding_all decide

end ClaimC4

section ClaimC5

open math_engine

/-- Claim C5, amended: whenever `calculateSS` reports `valid = true`, the
linear regression of `log10 |Ids|` against `Vgs` over the *surviving*
points of the detected region (those whose raw current magnitude exceeds
the `1e-15` floor) had slope magnitude above `1e-9` and R² above 0.9, the
returned SS equals `(1/|slope|)·1000` and lies in `[60, 2000]`, and the
tangent endpoints are the fitted line evaluated at the first and last
surviving gate voltages; when any acceptance condition fails the result is
invalid with `ss_mVdec = 0`. -/
theorem C5_calculateSS_acceptance (lg : ℚ → ℚ) (ids vgs : List ℚ) :
    ((calculateSS lg ids vgs).valid = false → (calculateSS lg ids vgs).ss_mVdec = 0) ∧
    ((calculateSS lg ids vgs).valid = true →
      1 / 10 ^ 9 <
        |(linearRegression ((ssPoints lg ids vgs).map Prod.fst)
            ((ssPoints lg ids vgs).map Prod.snd)).slope| ∧
      9/10 < (linearRegression ((ssPoints lg ids vgs).map Prod.fst)
            ((ssPoints lg ids vgs).map Prod.snd)).r2 ∧
      (calculateSS lg ids vgs).ss_mVdec =
        (1 / |(linearRegression ((ssPoints lg ids vgs).map Prod.fst)
            ((ssPoints lg ids vgs).map Prod.snd)).slope|) * 1000 ∧
      60 ≤ (calculateSS lg ids vgs).ss_mVdec ∧ (calculateSS lg ids vgs).ss_mVdec ≤ 2000 ∧
      3 ≤ ((ssPoints lg ids vgs).map Prod.fst).length ∧
      (calculateSS lg ids vgs).x1 = ((ssPoints lg ids vgs).map Prod.fst).headD 0 ∧
      (calculateSS lg ids vgs).y1 =
        (linearRegression ((ssPoints lg ids vgs).map Prod.fst)
            ((ssPoints lg ids vgs).map Prod.snd)).slope * (calculateSS lg ids vgs).x1 +
          (linearRegression ((ssPoints lg ids vgs).map Prod.fst)
            ((ssPoints lg ids vgs).map Prod.snd)).intercept ∧
      (calculateSS lg ids vgs).x2 = ((ssPoints lg ids vgs).map Prod.fst).getLastD 0 ∧
      (calculateSS lg ids vgs).y2 =
        (linearRegression ((ssPoints lg ids vgs).map Prod.fst)
            ((ssPoints lg ids vgs).map Prod.snd)).slope * (calculateSS lg ids vgs).x2 +
          (linearRegression ((ssPoints lg ids vgs).map Prod.fst)
            ((ssPoints lg ids vgs).map Prod.snd)).intercept ∧
      (calculateSS lg ids vgs).regionStart = (ssRegion lg ids vgs).1 ∧
      (calculateSS lg ids vgs).regionEnd =
        (ssRegion lg ids vgs).1 + (ssRegion lg ids vgs).2 - 1) := by
  simp only [calculateSS]
  split
  · exact ⟨fun _ => rfl, fun h => absurd h (by simp)⟩
  · split
    · split
      · split
        · rename_i hcond3
          split
          · rename_i hcond4
            constructor
            · intro hfalse
              exact absurd hfalse (by simp)
            · intro _
              exact ⟨hcond3.1, hcond3.2, rfl, hcond4.1, hcond4.2, by assumption,
                rfl, rfl, rfl, rfl, rfl, rfl⟩
          · exact ⟨fun _ => rfl, fun h => absurd h (by simp)⟩
        · exact ⟨fun _ => rfl, fun h => absurd h (by simp)⟩
      · exact ⟨fun _ => rfl, fun h => absurd h (by simp)⟩
    · exact ⟨fun _ => rfl, fun h => absurd h (by simp)⟩

/-- Counterexample to claim C5 as stated (with `lg = id` as the model of
`log10f`): the accepted result's detected region starts at index 2, whose
gate voltage is 2, but the returned tangent endpoint is `x1 = 3` — the
regression and its endpoints use only the region's points whose raw
current magnitude exceeds `1e-15`, not the full detected region, so
`(x1, y1)` is not the fitted line evaluated at the region's first gate
voltage. -/
theorem C5_counterexample :
    (calculateSS id ssCexIds ssCexVgs).valid = true ∧
    (calculateSS id ssCexIds ssCexVgs).regionStart = 2 ∧
    ssCexVgs.getD 2 0 = 2 ∧
    (calculateSS id ssCexIds ssCexVgs).x1 = 3 := by
  refine ⟨?_, ?_, ?_, ?_⟩ <;> with_unfolding_all decide

/-- Witness for C5 at a concrete accepted input. -/
theorem C5_calculateSS_acceptance_witness :
    (calculateSS id ssCexIds ssCexVgs).valid = true ∧
    1 / 10 ^ 9 <
      |(linearRegression ((ssPoints id ssCexIds ssCexVgs).map Prod.fst)
          ((ssPoints id ssCexIds ssCexVgs).map Prod.snd)).slope| :=
  ⟨by with_unfolding_all decide,
    ((C5_calculateSS_acceptance id ssCexIds ssCexVgs).2
      (by with_unfolding_all decide)).1⟩

end ClaimC5

section ClaimC7

open FileManager

/-- The substring search models the infix relation. -/
theorem hasInfix_iff (pat : List Char) : ∀ l : List Char,
    hasInfix pat l = true ↔ pat <:+: l := by
  intro l
  induction l with
  | nil =>
    simp only [hasInfix, List.isPrefixOf_iff_prefix]
    simp [List.prefix_nil, List.infix_nil]
  | cons c rest ih =>
    simp only [hasInfix, Bool.or_eq_true, List.isPrefixOf_iff_prefix, ih]
    exact (List.infix_cons_iff).symm

/-- The accepted character class is exactly `[A-Za-z0-9_.-]`. -/
theorem validChar_iff (c : Char) : validChar c = true ↔
    (('A' ≤ c ∧ c ≤ 'Z') ∨ ('a' ≤ c ∧ c ≤ 'z') ∨ ('0' ≤ c ∧ c ≤ '9') ∨
      c = '_' ∨ c = '.' ∨ c = '-') := by
  have hu : c.isUpper = true ↔ ('A' ≤ c ∧ c ≤ 'Z') := by
    simp [Char.isUpper, Char.le_def]
  have hl : c.isLower = true ↔ ('a' ≤ c ∧ c ≤ 'z') := by
    simp [Char.isLower, Char.le_def]
  have hd : c.isDigit = true ↔ ('0' ≤ c ∧ c ≤ '9') := by
    simp [Char.isDigit, Char.le_def]
  simp only [validChar, Char.isAlphanum, Char.isAlpha, Bool.or_eq_true,
    decide_eq_true_eq, hu, hl, hd]
  constructor
  · rintro (((((h | h) | h) | h) | h) | h)
    · exact Or.inl h
    · exact Or.inr (Or.inl h)
    · exact Or.inr (Or.inr (Or.inl h))
    · exact Or.inr (Or.inr (Or.inr (Or.inl h)))
    · exact Or.inr (Or.inr (Or.inr (Or.inr (Or.inr h))))
    · exact Or.inr (Or.inr (Or.inr (Or.inr (Or.inl h))))
  · rintro (h | h | h | h | h | h)
    · exact Or.inl (Or.inl (Or.inl (Or.inl (Or.inl h))))
    · exact Or.inl (Or.inl (Or.inl (Or.inl (Or.inr h))))
    · exact Or.inl (Or.inl (Or.inl (Or.inr h)))
    · exact Or.inl (Or.inl (Or.inr h))
    · exact Or.inr h
    · exact Or.inl (Or.inr h)

/-- Claim C7: `isValidFilename` is a pure predicate of the name alone
(its model takes nothing but the string): it accepts exactly the non-empty
names of at most 100 characters that contain no `".."` sequence, no `'/'`
or `'\\'` path separator and no character outside `[A-Za-z0-9_.-]`, and
that end in `".csv"`; in particular it rejects `"../etc/passwd"`,
`"a/b.csv"` and `"a b.csv"`, and accepts `"run_1700000000.csv"`. -/
theorem C7_isValidFilename_characterization :
    (∀ f : List Char, isValidFilename f = true ↔
      (f ≠ [] ∧ f.length ≤ 100 ∧
        ¬ ['.', '.'] <:+: f ∧
        '/' ∉ f ∧ '\\' ∉ f ∧
        (∀ c ∈ f, ('A' ≤ c ∧ c ≤ 'Z') ∨ ('a' ≤ c ∧ c ≤ 'z') ∨ ('0' ≤ c ∧ c ≤ '9') ∨
          c = '_' ∨ c = '.' ∨ c = '-') ∧
        ['.', 'c', 's', 'v'] <:+ f)) ∧
    isValidFilename "../etc/passwd".toList = false ∧
    isValidFilename "a/b.csv".toList = false ∧
    isValidFilename "a b.csv".toList = false ∧
    isValidFilename "run_1700000000.csv".toList = true := by
  refine ⟨fun f => ?_, by decide, by decide, by decide, by decide⟩
  unfold isValidFilename
  by_cases h1 : f.length = 0 ∨ 100 < f.length
  · rw [if_pos h1]
    simp only [Bool.false_eq_true, false_iff]
    rintro ⟨hne, hlen, -⟩
    rcases h1 with h0 | hgt
    · exact hne (List.length_eq_zero.mp h0)
    · omega
  · rw [if_neg h1]
    push_neg at h1
    by_cases h2 : hasInfix ['.', '.'] f = true
    · rw [if_pos h2]
      simp only [Bool.false_eq_true, false_iff]
      rintro ⟨-, -, hinf, -⟩
      exact hinf ((hasInfix_iff _ f).mp h2)
    · rw [if_neg h2]
      by_cases h3 : f.contains '/' = true
      · rw [if_pos h3]
        simp only [Bool.false_eq_true, false_iff]
        rintro ⟨-, -, -, hmem, -⟩
        exact hmem (by simpa using h3)
      · rw [if_neg h3]
        by_cases h4 : f.contains '\\' = true
        · rw [if_pos h4]
          simp only [Bool.false_eq_true, false_iff]
          rintro ⟨-, -, -, -, hmem, -⟩
          exact hmem (by simpa using h4)
        · rw [if_neg h4]
          by_cases h5 : f.all validChar = true
          · rw [if_neg (by simp [h5])]
            rw [List.isSuffixOf_iff_suffix]
            constructor
            · intro hsuf
              refine ⟨fun h0 => by simp [h0] at h1, h1.2, ?_, ?_, ?_, ?_, hsuf⟩
              · intro hinf
                exact h2 ((hasInfix_iff _ f).mpr hinf)
              · intro hmem
                exact h3 (by simpa using hmem)
              · intro hmem
                exact h4 (by simpa using hmem)
              · intro c hc
                exact (validChar_iff c).mp (List.all_eq_true.mp h5 c hc)
            · rintro ⟨-, -, -, -, -, -, hsuf⟩
              exact hsuf
          · rw [if_pos (by simpa using h5)]
            simp only [Bool.false_eq_true, false_iff]
            rintro ⟨-, -, -, -, -, hall, -⟩
            exact h5 (List.all_eq_true.mpr fun c hc => (validChar_iff c).mpr (hall c hc))

end ClaimC7

section ClaimC6

open math_engine

/-- A single valid point forms a run. -/
theorem goodRun_one (slopes : List ℚ) (valid : List Bool) (i : ℕ)
    (hv : valid.getD i false = true) : goodRun slopes valid i 1 := by
  refine ⟨Nat.one_pos, ?_, ?_⟩
  · intro j hj1 hj2
    have : j = i := by omega
    subst this
    exact hv
  · intro j hj1 hj2
    omega

/-- A run extends by one point when the next point is valid and the ratio
into it is inside the window. -/
theorem goodRun_extend (slopes : List ℚ) (valid : List Bool) (s l i : ℕ)
    (h : goodRun slopes valid s l) (he : s + l = i)
    (hv : valid.getD i false = true) (hr : ratioOk slopes i) :
    goodRun slopes valid s (l + 1) := by
  refine ⟨by omega, ?_, ?_⟩
  · intro j hj1 hj2
    by_cases hji : j = i
    · subst hji; exact hv
    · exact h.2.1 j (by omega) hj2
  · intro j hj1 hj2
    by_cases hji : j = i
    · subst hji; exact hr
    · exact h.2.2 j (by omega) hj2

/-- Any non-empty prefix of a run is a run. -/
theorem goodRun_mono (slopes : List ℚ) (valid : List Bool) (s l l' : ℕ)
    (h : goodRun slopes valid s l) (hl : 0 < l') (hle : l' ≤ l) :
    goodRun slopes valid s l' :=
  ⟨hl, fun j hj1 hj2 => h.2.1 j (by omega) hj2, fun j hj1 hj2 => h.2.2 j (by omega) hj2⟩

/-- A run lies inside the validity array. -/
theorem goodRun_end_le (slopes : List ℚ) (valid : List Bool) (s l : ℕ)
    (h : goodRun slopes valid s l) : s + l ≤ valid.length := by
  by_contra hgt
  have hl := h.1
  have hv := h.2.1 (s + l - 1) (by omega) (by omega)
  rw [List.getD_eq_default _ _ (by omega)] at hv
  exact absurd hv (by simp)

/-- A run whose end lies beyond a blocked index must start at or after it. -/
theorem blockedAt_start_le (slopes : List ℚ) (valid : List Bool) (c s l : ℕ)
    (hb : blockedAt slopes valid c) (h : goodRun slopes valid s l)
    (hc : c < s + l) : c ≤ s := by
  by_contra hlt
  push_neg at hlt
  have hvp : valid.getD (c - 1) false = true := h.2.1 (c - 1) (by omega) (by omega)
  have hr : ratioOk slopes c := h.2.2 c hc (by omega)
  rcases hb with hb | hb
  · rw [hvp] at hb
    exact absurd hb (by simp)
  · exact hb hr

/-- Constructor for the invariant with the state components spelled out. -/
theorem scanInv_of (slopes : List ℚ) (valid : List Bool) (i bs bl cs cl : ℕ)
    (H1 : ∀ s l, goodRun slopes valid s l → s + l = i → l ≤ cl)
    (H2 : 0 < cl → goodRun slopes valid cs cl ∧ cs + cl = i)
    (H3 : ∀ s l, goodRun slopes valid s l → s + l + cl ≤ i → l ≤ bl)
    (H4 : 0 < bl → goodRun slopes valid bs bl ∧ bs + bl + cl ≤ i)
    (H5 : ∀ s l, goodRun slopes valid s l → s + l + cl ≤ i → l = bl → bs ≤ s)
    (H6 : 0 < cl → blockedAt slopes valid cs) :
    ScanInv slopes valid i ⟨bs, bl, cs, cl⟩ :=
  ⟨H1, H2, H3, H4, H5, H6⟩

/-- The invariant holds before the first scanned index. -/
theorem scanInv_init (slopes : List ℚ) (valid : List Bool)
    (hv0 : valid.getD 0 false = false) : ScanInv slopes valid 1 {} := by
  have hno : ∀ s l, goodRun slopes valid s l → ¬ s + l ≤ 1 := by
    intro s l hr hle
    have hl := hr.1
    have hs0 : s = 0 := by omega
    have hv := hr.2.1 0 (by omega) (by omega)
    rw [hv0] at hv
    exact absurd hv (by simp)
  refine scanInv_of slopes valid 1 0 0 0 0 ?_ ?_ ?_ ?_ ?_ ?_
  · intro s l hr he
    exact absurd (by omega) (hno s l hr)
  · omega
  · intro s l hr he
    exact absurd (by omega : s + l ≤ 1) (hno s l hr)
  · omega
  · intro s l hr he
    exact absurd (by omega : s + l ≤ 1) (hno s l hr)
  · omega

/-- Any run contained in the scanned prefix is no longer than the best run
— unless it reaches into the currently open run, in which case it starts at
or after the open run's start. -/
theorem scanInv_runs_le (slopes : List ℚ) (valid : List Bool) (i : ℕ) (st : ScanState)
    (h : ScanInv slopes valid i st) :
    ∀ s l, goodRun slopes valid s l → s + l ≤ i →
      l ≤ st.bestLen ∨ (st.currStart ≤ s ∧ l ≤ st.currLen ∧ 0 < st.currLen ∧
        st.currStart + st.currLen = i ∧ ¬ s + l + st.currLen ≤ i) := by
  intro s l hr hend
  by_cases hsub : s + l + st.currLen ≤ i
  · exact Or.inl (h.best_max s l hr hsub)
  · have hcl : 0 < st.currLen := by omega
    obtain ⟨hcg, hce⟩ := h.curr_good hcl
    have hb := h.curr_blocked hcl
    have hcs : st.currStart ≤ s := blockedAt_start_le _ _ _ _ _ hb hr (by omega)
    exact Or.inr ⟨hcs, by omega, hcl, hce, hsub⟩

/-- Folding the open run into the best run (the update performed whenever a
run is closed) yields the first-found longest run of the scanned prefix. -/
theorem scanInv_merge (slopes : List ℚ) (valid : List Bool) (i : ℕ) (st : ScanState)
    (h : ScanInv slopes valid i st) :
    (∀ s l, goodRun slopes valid s l → s + l ≤ i →
      l ≤ (if st.bestLen < st.currLen then st.currLen else st.bestLen)) ∧
    (0 < (if st.bestLen < st.currLen then st.currLen else st.bestLen) →
      goodRun slopes valid (if st.bestLen < st.currLen then st.currStart else st.bestStart)
        (if st.bestLen < st.currLen then st.currLen else st.bestLen) ∧
      (if st.bestLen < st.currLen then st.currStart else st.bestStart) +
        (if st.bestLen < st.currLen then st.currLen else st.bestLen) ≤ i) ∧
    (∀ s l, goodRun slopes valid s l → s + l ≤ i →
      l = (if st.bestLen < st.currLen then st.currLen else st.bestLen) →
      (if st.bestLen < st.currLen then st.currStart else st.bestStart) ≤ s) := by
  by_cases hbc : st.bestLen < st.currLen
  · simp only [if_pos hbc]
    refine ⟨?_, ?_, ?_⟩
    · intro s l hr hend
      rcases scanInv_runs_le slopes valid i st h s l hr hend with hle | ⟨-, hle, -⟩
      · omega
      · exact hle
    · intro hcl
      obtain ⟨hcg, hce⟩ := h.curr_good hcl
      exact ⟨hcg, by omega⟩
    · intro s l hr hend heq
      rcases scanInv_runs_le slopes valid i st h s l hr hend with hle | ⟨hcs, -, -⟩
      · omega
      · exact hcs
  · simp only [if_neg hbc]
    refine ⟨?_, ?_, ?_⟩
    · intro s l hr hend
      rcases scanInv_runs_le slopes valid i st h s l hr hend with hle | ⟨-, hle, -, -⟩
      · exact hle
      · omega
    · intro hbl
      obtain ⟨hbg, hbe⟩ := h.best_good hbl
      exact ⟨hbg, by omega⟩
    · intro s l hr hend heq
      by_cases hsub : s + l + st.currLen ≤ i
      · exact h.best_first s l hr hsub heq
      · have hcl : 0 < st.currLen := by omega
        obtain ⟨hcg, hce⟩ := h.curr_good hcl
        have hb := h.curr_blocked hcl
        have hcs : st.currStart ≤ s := blockedAt_start_le _ _ _ _ _ hb hr (by omega)
        have hlc : l ≤ st.currLen := by omega
        have hbl : 0 < st.bestLen := by omega
        obtain ⟨-, hbe⟩ := h.best_good hbl
        omega

/-- One scan iteration preserves the invariant. -/
theorem scanInv_step (slopes : List ℚ) (valid : List Bool) (i : ℕ) (st : ScanState)
    (hi : 1 ≤ i) (h : ScanInv slopes valid i st) :
    ScanInv slopes valid (i + 1) (scanStep slopes valid st i) := by
  by_cases hvi : valid.getD i false = false
  · -- the point is invalid: close the open run and reset
    have hA : scanStep slopes valid st i =
        ⟨if st.bestLen < st.currLen then st.currStart else st.bestStart,
         if st.bestLen < st.currLen then st.currLen else st.bestLen, i + 1, 0⟩ := by
      simp only [scanStep]
      rw [if_pos hvi]
      by_cases hbc : st.bestLen < st.currLen
      · rw [if_pos hbc]
        simp [hbc]
      · rw [if_neg hbc]
        simp [hbc]
    obtain ⟨hM1, hM2, hM3⟩ := scanInv_merge slopes valid i st h
    rw [hA]
    have hend_le : ∀ s l, goodRun slopes valid s l → s + l ≤ i + 1 → s + l ≤ i := by
      intro s l hr hend
      by_contra hgt
      have hl := hr.1
      have hv := hr.2.1 i (by omega) (by omega)
      rw [hvi] at hv
      exact absurd hv (by simp)
    refine scanInv_of slopes valid (i+1) _ _ (i+1) 0 ?_ ?_ ?_ ?_ ?_ ?_
    · intro s l hr he
      have := hend_le s l hr (by omega)
      omega
    · omega
    · intro s l hr he
      exact hM1 s l hr (hend_le s l hr (by omega))
    · intro hbl
      obtain ⟨hg, he⟩ := hM2 hbl
      exact ⟨hg, by omega⟩
    · intro s l hr he heq
      exact hM3 s l hr (hend_le s l hr (by omega)) heq
    · omega
  · have hvi' : valid.getD i false = true := by
      revert hvi
      cases valid.getD i false <;> simp
    by_cases hcond : st.currLen = 0 ∨ valid.getD (i-1) false = false
    · -- open a fresh run at i
      have hcl0 : st.currLen = 0 := by
        rcases hcond with hc | hvim
        · exact hc
        · by_contra hpos
          obtain ⟨hcg, hce⟩ := h.curr_good (by omega)
          have hl := hcg.1
          have hv := hcg.2.1 (i - 1) (by omega) (by omega)
          rw [hvim] at hv
          exact absurd hv (by simp)
      have hvim : valid.getD (i-1) false = false := by
        by_contra hvt
        have hvt' : valid.getD (i-1) false = true := by
          revert hvt
          cases valid.getD (i-1) false <;> simp
        have hone : goodRun slopes valid (i-1) 1 := goodRun_one _ _ _ hvt'
        have := h.curr_max (i-1) 1 hone (by omega)
        omega
      have hB : scanStep slopes valid st i = ⟨st.bestStart, st.bestLen, i, 1⟩ := by
        simp only [scanStep]
        rw [if_neg (by rw [hvi']; simp), if_pos hcond]
      rw [hB]
      refine scanInv_of slopes valid (i+1) _ _ i 1 ?_ ?_ ?_ ?_ ?_ ?_
      · intro s l hr he
        by_contra hgt
        have hl := hr.1
        have hv := hr.2.1 (i - 1) (by omega) (by omega)
        rw [hvim] at hv
        exact absurd hv (by simp)
      · intro _
        exact ⟨goodRun_one _ _ _ hvi', rfl⟩
      · intro s l hr he
        exact h.best_max s l hr (by omega)
      · intro hbl
        obtain ⟨hg, he⟩ := h.best_good hbl
        exact ⟨hg, by omega⟩
      · intro s l hr he heq
        exact h.best_first s l hr (by omega) heq
      · intro _
        exact Or.inl hvim
    · push_neg at hcond
      obtain ⟨hclpos', hvim'⟩ := hcond
      have hclpos : 0 < st.currLen := Nat.pos_of_ne_zero hclpos'
      have hvim : valid.getD (i-1) false = true := by
        revert hvim'
        cases valid.getD (i-1) false <;> simp
      obtain ⟨hcg, hce⟩ := h.curr_good hclpos
      by_cases hro : 1/2 < slopes.getD i 0 / slopes.getD (i-1) 0 ∧
          slopes.getD i 0 / slopes.getD (i-1) 0 < 2
      · -- the ratio is consistent: extend the open run
        have hroOk : ratioOk slopes i := hro
        have hC : scanStep slopes valid st i =
            ⟨st.bestStart, st.bestLen, st.currStart, st.currLen + 1⟩ := by
          simp only [scanStep]
          rw [if_neg (by rw [hvi']; simp), if_neg (by push_neg; exact ⟨hclpos', hvim'⟩),
            if_pos hro]
        rw [hC]
        refine scanInv_of slopes valid (i+1) _ _ _ (st.currLen + 1) ?_ ?_ ?_ ?_ ?_ ?_
        · intro s l hr he
          rcases Nat.lt_or_ge l 2 with hl1 | hl2
          · omega
          · have hsub : goodRun slopes valid s (l - 1) :=
              goodRun_mono _ _ _ _ _ hr (by omega) (by omega)
            have := h.curr_max s (l - 1) hsub (by omega)
            omega
        · intro _
          exact ⟨goodRun_extend _ _ _ _ _ hcg hce hvi' hroOk, by omega⟩
        · intro s l hr he
          exact h.best_max s l hr (by omega)
        · intro hbl
          obtain ⟨hg, he⟩ := h.best_good hbl
          exact ⟨hg, by omega⟩
        · intro s l hr he heq
          exact h.best_first s l hr (by omega) heq
        · intro _
          exact h.curr_blocked hclpos
      · -- the ratio breaks: close the open run and start a new one at i
        have hroNot : ¬ ratioOk slopes i := hro
        have hD : scanStep slopes valid st i =
            ⟨if st.bestLen < st.currLen then st.currStart else st.bestStart,
             if st.bestLen < st.currLen then st.currLen else st.bestLen, i, 1⟩ := by
          simp only [scanStep]
          rw [if_neg (by rw [hvi']; simp), if_neg (by push_neg; exact ⟨hclpos', hvim'⟩),
            if_neg hro]
          by_cases hbc : st.bestLen < st.currLen
          · rw [if_pos hbc]
            simp [hbc]
          · rw [if_neg hbc]
            simp [hbc]
        obtain ⟨hM1, hM2, hM3⟩ := scanInv_merge slopes valid i st h
        rw [hD]
        refine scanInv_of slopes valid (i+1) _ _ i 1 ?_ ?_ ?_ ?_ ?_ ?_
        · intro s l hr he
          rcases Nat.lt_or_ge l 2 with hl1 | hl2
          · omega
          · exact absurd (hr.2.2 i (by omega) (by omega)) hroNot
        · intro _
          exact ⟨goodRun_one _ _ _ hvi', rfl⟩
        · intro s l hr he
          exact hM1 s l hr (by omega)
        · intro hbl
          obtain ⟨hg, he⟩ := hM2 hbl
          exact ⟨hg, by omega⟩
        · intro s l hr he heq
          exact hM3 s l hr (by omega) heq
        · intro _
          exact Or.inr hroNot

/-- The invariant is carried through the whole scan. -/
theorem scanInv_fold (slopes : List ℚ) (valid : List Bool) :
    ∀ (k i : ℕ) (st : ScanState), 1 ≤ i → ScanInv slopes valid i st →
      ScanInv slopes valid (i + k) ((List.range' i k).foldl (scanStep slopes valid) st) := by
  intro k
  induction k with
  | zero =>
    intro i st hi h
    simpa using h
  | succ m ih =>
    intro i st hi h
    rw [List.range'_succ, List.foldl_cons]
    have := ih (i + 1) (scanStep slopes valid st i) (by omega)
      (scanInv_step slopes valid i st hi h)
    rw [show i + (m + 1) = (i + 1) + m by omega]
    exact this

/-- The specification of the step-2 scan: `ssBestRun` returns a run that
is good (when non-empty), no good run is longer, and among good runs of
the selected length the selected one starts first. -/
theorem ssBestRun_spec (slopes : List ℚ) (valid : List Bool) (n : ℕ)
    (hn : valid.length = n) (hv0 : valid.getD 0 false = false) :
    (0 < (ssBestRun slopes valid n).2 →
      goodRun slopes valid (ssBestRun slopes valid n).1 (ssBestRun slopes valid n).2) ∧
    (∀ s l, goodRun slopes valid s l → l ≤ (ssBestRun slopes valid n).2) ∧
    (∀ s l, goodRun slopes valid s l → l = (ssBestRun slopes valid n).2 →
      (ssBestRun slopes valid n).1 ≤ s) := by
  rcases Nat.eq_zero_or_pos n with hn0 | hnpos
  · -- no index is ever scanned and no run exists at all
    have hno : ∀ s l, ¬ goodRun slopes valid s l := by
      intro s l hr
      have hend := goodRun_end_le slopes valid s l hr
      have hl := hr.1
      omega
    exact ⟨fun h => by
        unfold ssBestRun at h ⊢
        rw [hn0] at h ⊢
        simp at h,
      fun s l hr => absurd hr (hno s l), fun s l hr => absurd hr (hno s l)⟩
  · have hinv := scanInv_fold slopes valid (n - 1) 1 {} (by omega)
      (scanInv_init slopes valid hv0)
    rw [show 1 + (n - 1) = n by omega] at hinv
    set st := (List.range' 1 (n-1)).foldl (scanStep slopes valid) {} with hst
    have hrun : ssBestRun slopes valid n =
        if st.bestLen < st.currLen then (st.currStart, st.currLen)
        else (st.bestStart, st.bestLen) := by
      unfold ssBestRun
      rw [← hst]
    have hends : ∀ s l, goodRun slopes valid s l → s + l ≤ n := fun s l hr => by
      have := goodRun_end_le slopes valid s l hr
      omega
    obtain ⟨hM1, hM2, hM3⟩ := scanInv_merge slopes valid n st hinv
    rw [hrun]
    by_cases hbc : st.bestLen < st.currLen
    · rw [if_pos hbc]
      simp only [if_pos hbc] at hM1 hM2 hM3
      exact ⟨fun hp => (hM2 hp).1, fun s l hr => hM1 s l hr (hends s l hr),
        fun s l hr he => hM3 s l hr (hends s l hr) he⟩
    · rw [if_neg hbc]
      simp only [if_neg hbc] at hM1 hM2 hM3
      exact ⟨fun hp => (hM2 hp).1, fun s l hr => hM1 s l hr (hends s l hr),
        fun s l hr he => hM3 s l hr (hends s l hr) he⟩

/-- The validity array of `calculateSS` has the input's length. -/
theorem ssValidList_length (lg : ℚ → ℚ) (ids vgs : List ℚ) :
    (ssValidList lg ids vgs).length = ids.length := by
  simp [ssValidList]

/-- Index 0 is never marked valid by step 1 of `calculateSS`. -/
theorem ssValidList_zero (lg : ℚ → ℚ) (ids vgs : List ℚ) :
    (ssValidList lg ids vgs).getD 0 false = false := by
  unfold ssValidList
  cases h : ids.length with
  | zero => simp
  | succ m =>
    rw [List.range_succ_eq_map, List.map_cons, List.getD_cons_zero]
    simp [ssSlopeValid]

/-- Claim C6, amended: inside `calculateSS` the regression region
`(bestStart, bestLen)` is the longest contiguous run of valid points whose
successive slope ratios stay strictly inside the *open* interval
`(0.5, 2.0)` (the source tests `ratio > 0.5f && ratio < 2.0f`); when
several runs are longest, the earliest-starting one is selected. -/
theorem C6_region_is_first_longest_run (lg : ℚ → ℚ) (ids vgs : List ℚ) :
    (0 < (ssRegion lg ids vgs).2 →
      goodRun (ssSlopes lg ids vgs) (ssValidList lg ids vgs)
        (ssRegion lg ids vgs).1 (ssRegion lg ids vgs).2) ∧
    (∀ s l, goodRun (ssSlopes lg ids vgs) (ssValidList lg ids vgs) s l →
      l ≤ (ssRegion lg ids vgs).2) ∧
    (∀ s l, goodRun (ssSlopes lg ids vgs) (ssValidList lg ids vgs) s l →
      l = (ssRegion lg ids vgs).2 → (ssRegion lg ids vgs).1 ≤ s) := by
  unfold ssRegion
  exact ssBestRun_spec (ssSlopes lg ids vgs) (ssValidList lg ids vgs) ids.length
    (ssValidList_length lg ids vgs) (ssValidList_zero lg ids vgs)

/-- Counterexample to claim C6 as stated: with the closed ratio window
`[0.5, 2.0]` of the claim, the run starting at index 2 with length 4 is
contiguous and consistent (its slope ratios are 2.0, 1.0 and 1.0), yet
`calculateSS` selects the region `(3, 3)` of length 3 — the source's ratio
test is strict, so a ratio of exactly 2.0 breaks the run and the claimed
longest run is not the one selected. -/
theorem C6_counterexample :
    goodRunClosed (ssSlopes runCexLg runCexIds runCexVgs)
      (ssValidList runCexLg runCexIds runCexVgs) 2 4 ∧
    ssRegion runCexLg runCexIds runCexVgs = (3, 3) ∧ (3 : ℕ) < 4 := by
  refine ⟨?_, ?_, by decide⟩ <;> with_unfolding_all decide

/-- Witness for C6 at the concrete counterexample input: the selected
region is non-empty and is indeed a good run under the strict window. -/
theorem C6_region_is_first_longest_run_witness :
    0 < (ssRegion runCexLg runCexIds runCexVgs).2 ∧
    goodRun (ssSlopes runCexLg runCexIds runCexVgs)
      (ssValidList runCexLg runCexIds runCexVgs)
      (ssRegion runCexLg runCexIds runCexVgs).1
      (ssRegion runCexLg runCexIds runCexVgs).2 :=
  ⟨by with_unfolding_all decide,
    (C6_region_is_first_longest_run runCexLg runCexIds runCexVgs).1
      (by with_unfolding_all decide)⟩

end ClaimC6
